import Mathlib

/-!
Verification of the upload-scheduling backend (GitHub folder uploader).

The definitions below are shallow embeddings of the JavaScript source:
  * `sanitizePath`, `isValidPath`  — src/unnamed/part_003 (pathSanitizer.js)
  * the upload queue / rate-limit governor — src/unnamed/part_003 (uploadQueue.js)
  * the HTTP route handlers (start / execute / status / cancel) — src/unnamed/part_001
  * `validateFileList` — src/unnamed/part_005
Strings are handled through their underlying `List Char`; machine behaviour
(JS string methods, regexes applied by the source) is translated clause by
clause.  The `p-queue` dependency (not part of the repository) is modelled
from its documented semantics: operations with greater `priority` are
scheduled first, FIFO among equal priorities; with `throwOnTimeout: false` a
timed-out operation resolves with `undefined` while the underlying job
continues to run.
-/

namespace Autoclone

/-! ### Path sanitizer (src/unnamed/part_003, `sanitizePath`) -/

/-- The character class `[<>:"|?*]` removed by `sanitizePath` and rejected by
`isValidPath` (the "invalid Windows characters"). -/
def invalidChar (c : Char) : Bool :=
  c = '<' || c = '>' || c = ':' || c = '\"' || c = '|' || c = '?' || c = '*'

/-- JavaScript `\s` / `String.trim` whitespace, restricted to the ASCII range
(the source never produces non-ASCII whitespace on the paths at issue). -/
def jsWhitespace (c : Char) : Bool :=
  c = ' ' || c = '\t' || c = '\n' || c = '\r' || c = '\x0b' || c = '\x0c'

/-- Drop characters satisfying `p` from both ends of a list
(JS `replace(/^\s+|\s+$/g, '')` with `p := jsWhitespace`, and the
`replace(/^\/+|\/+$/g, '')` step with `p := (· = '/')`). -/
def trimBy (p : Char → Bool) (l : List Char) : List Char :=
  ((l.dropWhile p).reverse.dropWhile p).reverse

/-- Split a character list on `'/'` (JS `split('/')`). -/
def splitSlash : List Char → List (List Char)
  | [] => [[]]
  | c :: cs =>
    if c = '/' then [] :: splitSlash cs
    else
      match splitSlash cs with
      | [] => [[c]]
      | p :: ps => (c :: p) :: ps

/-- Join path parts with `'/'` (JS `join('/')`). -/
def joinSlash : List (List Char) → List Char
  | [] => []
  | [p] => p
  | p :: ps => p ++ '/' :: joinSlash ps

/-- JS `replace(/\.{2,}/g, '.')`: each maximal run of two or more dots becomes
a single dot. -/
def collapseDots : List Char → List Char
  | [] => []
  | [c] => [c]
  | c :: d :: rest =>
    if c = '.' && d = '.' then collapseDots (d :: rest)
    else c :: collapseDots (d :: rest)

/-- The per-part cleaning step of `sanitizePath` (part_003 lines 308-311):
remove invalid Windows characters, trim whitespace, collapse dot runs. -/
def cleanPart (p : List Char) : List Char :=
  collapseDots (trimBy jsWhitespace (p.filter (fun c => !invalidChar c)))

/-- The part-processing loop of `sanitizePath` (part_003 lines 293-316):
skip empty parts and `"."`; `".."` pops the previous valid part; otherwise
clean the part and keep it when non-empty. -/
def processParts (acc : List (List Char)) : List (List Char) → List (List Char)
  | [] => acc
  | p :: ps =>
    if p = [] || p = ['.'] then processParts acc ps
    else if p = ['.', '.'] then processParts acc.dropLast ps
    else
      let cp := cleanPart p
      if cp = [] then processParts acc ps else processParts (acc ++ [cp]) ps

/-- The string-level preprocessing of `sanitizePath` (part_003 lines 281-287):
remove null bytes, turn backslashes into slashes, trim, strip outer
slashes. -/
def preprocessL (l : List Char) : List Char :=
  trimBy (fun c => c = '/')
    (trimBy jsWhitespace
      ((l.filter (fun c => c ≠ '\x00')).map (fun c => if c = '\\' then '/' else c)))

/-- `sanitizePath` on the underlying character list (part_003 lines 275-319):
preprocess, split on `'/'`, process the parts, re-join. -/
def sanitizePathL (l : List Char) : List Char :=
  joinSlash (processParts [] (splitSlash (preprocessL l)))

/-- Two adjacent characters are not both dots (the shape guaranteed by the
dot-collapsing step). -/
def notDD (a b : Char) : Prop :=
  ¬(a = '.' ∧ b = '.')

/-- The invariant satisfied by every part that survives one `sanitizePath`
pass: non-empty, free of separators, backslashes, null bytes and invalid
Windows characters, not whitespace-edged, and with no two adjacent dots
(hence never `".."`). -/
structure GoodPart (p : List Char) : Prop where
  ne : p ≠ []
  chars : ∀ c ∈ p, c ≠ '/' ∧ c ≠ '\\' ∧ c ≠ '\x00' ∧ invalidChar c = false
  hd : ∀ c, p.head? = some c → jsWhitespace c = false
  lst : ∀ c, p.getLast? = some c → jsWhitespace c = false
  chain : p.Chain' notDD

/-- `sanitizePath` of the source (part_003 lines 275-319). -/
def sanitizePath (s : String) : String :=
  String.mk (sanitizePathL s.data)

/-! ### Path validator (src/unnamed/part_003, `isValidPath`) -/

/-- Does `p` hold of some suffix of `l`?  Used to translate unanchored
regex tests. -/
def anySuffix (p : List Char → Bool) : List Char → Bool
  | [] => p []
  | c :: cs => p (c :: cs) || anySuffix p cs

/-- Match of `/\.git(\/|$)/i` at the head of a list. -/
def dotGitHere : List Char → Bool
  | '.' :: c1 :: c2 :: c3 :: rest =>
    c1.toLower = 'g' && c2.toLower = 'i' && c3.toLower = 't' &&
      (match rest with | [] => true | c :: _ => c = '/')
  | _ => false

/-- Match of `/\.\.(\/|$)/` at the head of a list. -/
def dotDotHere : List Char → Bool
  | '.' :: '.' :: rest => (match rest with | [] => true | c :: _ => c = '/')
  | _ => false

/-- Match of `/\/\/+/` (a double separator) at the head of a list. -/
def doubleSlashHere : List Char → Bool
  | '/' :: '/' :: _ => true
  | _ => false

/-- The `dangerousPatterns` test of `isValidPath` (part_003 lines 332-351):
true when any of the twelve regexes matches. -/
def hasDangerousPattern (l : List Char) : Bool :=
  anySuffix dotGitHere l ||
  anySuffix (fun s => match s with | '/' :: r => dotGitHere r | _ => false) l ||
  dotGitHere l ||
  anySuffix dotDotHere l ||
  anySuffix (fun s => match s with | '/' :: r => dotDotHere r | _ => false) l ||
  dotDotHere l ||
  anySuffix doubleSlashHere l ||
  (match l with | '/' :: _ => true | _ => false) ||
  (match l.getLast? with | some c => c = '/' | none => false) ||
  l.any invalidChar ||
  (match l.head? with | some c => jsWhitespace c | none => false) ||
  (match l.getLast? with | some c => jsWhitespace c | none => false) ||
  l.any (fun c => c = '\x00')

/-- `path.basename`: the part after the last `'/'`. -/
def basenameL (l : List Char) : List Char :=
  (l.reverse.takeWhile (fun c => c ≠ '/')).reverse

/-- The reserved Windows device names of `isValidPath` (part_003 lines 354-358). -/
def reservedNames : List (List Char) :=
  [ "CON".data, "PRN".data, "AUX".data, "NUL".data,
    "COM1".data, "COM2".data, "COM3".data, "COM4".data, "COM5".data,
    "COM6".data, "COM7".data, "COM8".data, "COM9".data,
    "LPT1".data, "LPT2".data, "LPT3".data, "LPT4".data, "LPT5".data,
    "LPT6".data, "LPT7".data, "LPT8".data, "LPT9".data ]

/-- `path.basename(filePath).toUpperCase().replace(/\..*$/, '')`:
uppercase the basename and strip everything from the first dot on. -/
def reservedKey (l : List Char) : List Char :=
  ((basenameL l).map Char.toUpper).takeWhile (fun c => c ≠ '.')

/-- `path.extname`: from the last dot of the basename to its end, empty when
there is no dot, the only dot is the leading character, or the basename is
`".."`. -/
def extnameL (l : List Char) : List Char :=
  let b := basenameL l
  if b = ['.', '.'] then []
  else
    let afterDot := b.reverse.takeWhile (fun c => c ≠ '.')
    if afterDot.length = b.length then []
    else if b.length = afterDot.length + 1 ∧ b.head? = some '.' then []
    else '.' :: afterDot.reverse

/-- The blocked file extensions of `isValidPath` (part_003 lines 367-375). -/
def blockedExtensions : List (List Char) :=
  [ ".exe".data, ".bat".data, ".cmd".data, ".sh".data, ".bin".data,
    ".dll".data, ".so".data, ".dylib".data, ".sys".data,
    ".php".data, ".php3".data, ".php4".data, ".php5".data, ".phtml".data,
    ".py".data, ".pyc".data, ".pyo".data, ".pyw".data,
    ".pl".data, ".pm".data, ".t".data, ".cgi".data,
    ".js".data, ".jse".data, ".vbs".data, ".vbe".data, ".wsf".data,
    ".jar".data, ".war".data, ".ear".data, ".class".data ]

/-- `isValidPath` of the source (part_003 lines 321-382): non-empty input of
at most 500 characters, no dangerous pattern, no reserved device name, no
blocked extension. -/
def isValidPathL (l : List Char) : Bool :=
  !l.isEmpty &&
  decide (l.length ≤ 500) &&
  !hasDangerousPattern l &&
  !reservedNames.contains (reservedKey l) &&
  !blockedExtensions.contains ((extnameL l).map Char.toLower)

/-- `isValidPath` of the source (part_003 lines 321-382). -/
def isValidPath (s : String) : Bool :=
  isValidPathL s.data

/-! ### Upload queue configuration and per-job accounting
(src/unnamed/part_003, `UploadQueue`) -/

/-- The `PQueue` options of the `UploadQueue` constructor
(part_003 lines 8-12). -/
structure QueueConfig where
  concurrency : Nat
  timeout : Nat
  throwOnTimeout : Bool
  deriving DecidableEq

/-- `new PQueue({concurrency: 3, timeout: 300000, throwOnTimeout: false})`
(part_003 lines 8-12, with `UPLOAD_CONCURRENCY` unset). -/
def uploadQueueConfig : QueueConfig :=
  { concurrency := 3, timeout := 300000, throwOnTimeout := false }

/-- The eventual outcome of a job body: the `try` branch succeeds, or the
`catch` branch observes an error with an optional HTTP status and an optional
`x-ratelimit-remaining` header (part_003 lines 33-126). -/
inductive JobOutcome
  | success
  | failure (status : Option Nat) (remaining : Option String)
  deriving DecidableEq

/-- The global counters of the `UploadQueue` (part_003 lines 15-20). -/
structure QueueStats where
  totalJobs : Nat
  completedJobs : Nat
  failedJobs : Nat
  rateLimitHits : Nat
  deriving DecidableEq

/-- The zeroed counter record (part_003 lines 15-20 and 183-190). -/
def initialQueueStats : QueueStats :=
  { totalJobs := 0, completedJobs := 0, failedJobs := 0, rateLimitHits := 0 }

/-- Whether an error is the rate-limit-exhaustion case of the `catch` branch:
`error.response?.status === 403 && headers['x-ratelimit-remaining'] === '0'`
(part_003 line 116). -/
def isRateLimitError (status : Option Nat) (remaining : Option String) : Bool :=
  status = some 403 && remaining = some "0"

/-- The effect of a settled job body on the global counters
(part_003 lines 86, 103, 117): success bumps `completedJobs`, failure bumps
`failedJobs`, and the 403/remaining-0 failure additionally bumps
`rateLimitHits`.  The per-session `stats` record is not touched here — the
source updates no per-session counter anywhere. -/
def outcomeDelta (r : JobOutcome) (q : QueueStats) : QueueStats :=
  match r with
  | .success => { q with completedJobs := q.completedJobs + 1 }
  | .failure st rem =>
    if isRateLimitError st rem then
      { q with failedJobs := q.failedJobs + 1, rateLimitHits := q.rateLimitHits + 1 }
    else
      { q with failedJobs := q.failedJobs + 1 }

/-- What the promise returned by `queue.add` yields for a job whose body takes
`duration` milliseconds and eventually produces `r`.  Modelled from the
`p-queue` dependency's documented semantics: when the operation exceeds
`timeout`, the promise rejects with a `TimeoutError` if `throwOnTimeout` is
set and otherwise resolves with `undefined`; in both cases the job body keeps
running and its own `try`/`catch` accounting still happens on its eventual
outcome. -/
inductive AddResult
  | settled (r : JobOutcome)
  | resolvedUndefined
  | timeoutRejected
  deriving DecidableEq

/-- The `queue.add` promise outcome for a body of the given duration
(`p-queue` semantics under the configuration of part_003 lines 8-12). -/
def addResult (cfg : QueueConfig) (duration : Nat) (r : JobOutcome) : AddResult :=
  if duration > cfg.timeout then
    if cfg.throwOnTimeout then .timeoutRejected else .resolvedUndefined
  else .settled r

/-! ### The `p-queue` priority queue (dependency of part_003)

Modelled from the documented behaviour of `p-queue`'s default priority queue:
enqueue keeps the pending list sorted by **descending** `priority`, inserting
a new element after every element of greater-or-equal priority (so ties keep
FIFO order); dequeue takes the head.  `addUploadJob` passes
`priority: fileData.priority || 0` (part_003 lines 130-132) and the execute
route supplies `priority: index` in file order (part_001 line 181). -/

/-- Stable insertion of `(submissionIndex, priority)` behind all entries of
greater-or-equal priority. -/
def pqEnqueue (q : List (Nat × Int)) (e : Nat × Int) : List (Nat × Int) :=
  match q with
  | [] => [e]
  | x :: xs => if e.2 ≤ x.2 then x :: pqEnqueue xs e else e :: x :: xs

/-- The order in which jobs submitted together with the given priorities are
dispatched when all of them wait for a slot: the pending list after all
enqueues, read front to back.  Element `(i, p)` is the job submitted at
position `i` with priority `p`. -/
def pqOrder (ps : List Int) : List (Nat × Int) :=
  ps.enum.foldl pqEnqueue []

/-- Job `a` is dispatched before job `b` legitimately when `a` carries the
strictly greater priority, or the priorities tie and `a` was submitted
first. -/
def pqR (a b : Nat × Int) : Prop :=
  b.2 < a.2 ∨ (a.2 = b.2 ∧ a.1 < b.1)

/-! ### Rate-limit governor (src/unnamed/part_003, `handleRateLimitExceeded`) -/

/-- The governor state: whether the queue is paused, the pending `setTimeout`
resume timers (their wait times), and counts of emitted events
(part_003 lines 150-168). -/
structure GovState where
  paused : Bool
  timers : List Int
  exceededCount : Nat
  resumedCount : Nat
  rateLimitHits : Nat
  deriving DecidableEq

/-- Initial governor state. -/
def initialGov : GovState :=
  { paused := false, timers := [], exceededCount := 0, resumedCount := 0,
    rateLimitHits := 0 }

/-- `handleRateLimitExceeded(headers)` (part_003 lines 150-168): computes
`waitTime = max(1000, resetTime*1000 − now + 1000)`, emits `rateLimitExceeded`,
pauses the queue, and schedules one more resume timer.  The source performs
these steps unconditionally — there is no check of an existing pause or
timer. -/
def handleRateLimitExceeded (now resetSec : Int) (g : GovState) : GovState :=
  { g with
      exceededCount := g.exceededCount + 1,
      paused := true,
      timers := g.timers ++ [max 1000 (resetSec * 1000 - now + 1000)] }

/-- The governor state after a sequence of exhaustion signals
`(now, resetSec)` has been handled, starting from the initial state. -/
def govAfterSignals (signals : List (Int × Int)) : GovState :=
  signals.foldl (fun a s => handleRateLimitExceeded s.1 s.2 a) initialGov

/-- Firing of one scheduled resume timer (part_003 lines 162-167):
`queue.start()` and a `rateLimitResumed` emission. -/
def fireResumeTimer (g : GovState) : GovState :=
  match g.timers with
  | [] => g
  | _ :: rest =>
    { g with paused := false, timers := rest, resumedCount := g.resumedCount + 1 }

/-- The `catch` branch's rate-limit handling (part_003 lines 116-119): when
the error is a 403 with `x-ratelimit-remaining: '0'`, bump `rateLimitHits`
and run `handleRateLimitExceeded`; otherwise the governor is untouched. -/
def onJobError (status : Option Nat) (remaining : Option String)
    (now resetSec : Int) (g : GovState) : GovState :=
  if isRateLimitError status remaining then
    handleRateLimitExceeded now resetSec
      { g with rateLimitHits := g.rateLimitHits + 1 }
  else g

/-! ### Batch (upload-session) routes (src/unnamed/part_001) -/

/-- One extracted file record as the start route sees it. -/
structure FileRec where
  path : String
  size : Nat
  deriving DecidableEq

/-- The per-session `stats` object stored by the start route
(part_001 lines 117-121). -/
structure SessionStats where
  total : Nat
  completed : Nat
  failed : Nat
  deriving DecidableEq

/-- One stored upload session (part_001 lines 103-122). -/
structure Session where
  status : String
  stats : SessionStats
  deriving DecidableEq

/-- The request material consumed by `POST /start` (part_001 lines 50-134):
the `owner`/`repo` form fields (absent or empty strings are falsy in JS), the
uploaded file, whether it is a ZIP, and the records extracted from it. -/
structure StartRequest where
  owner : Option String
  repo : Option String
  hasFile : Bool
  isZip : Bool
  extractedFiles : List FileRec

/-- JS falsiness of an optional string field (`!owner`): missing or empty. -/
def fieldMissing (f : Option String) : Bool :=
  match f with
  | none => true
  | some s => s = ""

/-- The valid files kept by the start route (part_001 lines 86-92):
`files.filter(file => isValidPath(file.path))`. -/
def validFiles (req : StartRequest) : List FileRec :=
  req.extractedFiles.filter (fun f => isValidPath f.path)

/-- `POST /start` (part_001 lines 50-134): reject when owner/repo is missing,
when no file was sent, when the file is not a ZIP, or when no extracted path
survives `isValidPath`; otherwise store a `pending` session whose stats are
`{total: validFiles.length, completed: 0, failed: 0}` and answer with the
file count and total size.  The route performs no check of the number of
files or of their aggregate size (`validateFileList` of part_005 is never
called). -/
def startUpload (req : StartRequest) : Except String (Session × Nat × Nat) :=
  if fieldMissing req.owner || fieldMissing req.repo then
    .error "Owner and repository name are required"
  else if !req.hasFile then
    .error "No file provided"
  else if !req.isZip then
    .error "Only ZIP files are accepted for folder uploads. Use single file upload endpoint for individual files."
  else
    let vf := validFiles req
    if vf.isEmpty then
      .error "No valid files found in upload"
    else
      .ok ({ status := "pending",
             stats := { total := vf.length, completed := 0, failed := 0 } },
           vf.length,
           (vf.map (fun f => f.size)).sum)

/-- `validateFileList(files, maxFiles, maxTotalSize)` (part_005 lines 74-85).
This helper exists in the repository but no route invokes it. -/
def validateFileList (files : List FileRec) (maxFiles maxTotalSize : Nat) :
    Except String Unit :=
  if files.length > maxFiles then .error "Too many files"
  else if (files.map (fun f => f.size)).sum > maxTotalSize then
    .error "Total size exceeds limit"
  else .ok ()

/-- The defaults of `validateFileList` (part_005 line 74): at most 1000 files,
at most 100 MiB aggregate size. -/
def maxFilesDefault : Nat := 1000

/-- Default aggregate size bound of `validateFileList`: `100 * 1024 * 1024`. -/
def maxTotalSizeDefault : Nat := 100 * 1024 * 1024

/-! ### Batch lifecycle (src/unnamed/part_001, execute / cancel / allSettled) -/

/-- The whole backend state relevant to batch accounting: the session map,
the scheduler's pending and active job lists (a job is a session id paired
with a file index), the global queue counters, and the log of started jobs in
start order. -/
structure BatchSys where
  sessions : List (String × Session)
  queued : List (String × Nat)
  active : List (String × Nat)
  qstats : QueueStats
  started : List (String × Nat)
  deriving DecidableEq

/-- Point update of one session in the session map. -/
def updateSession (sid : String) (f : Session → Session)
    (ss : List (String × Session)) : List (String × Session) :=
  ss.map (fun p => if p.1 = sid then (p.1, f p.2) else p)

/-- Lookup of one session. -/
def lookupSession (sid : String) (st : BatchSys) : Option Session :=
  (st.sessions.find? (fun p => p.1 = sid)).map (fun p => p.2)

/-- `POST /execute/:sessionId` (part_001 lines 155-199): set the session
status to `uploading` and hand every file to `uploadQueue.addUploadJob`
(each add bumps `totalJobs`, part_003 line 129). -/
def executeSession (sid : String) (n : Nat) (st : BatchSys) : BatchSys :=
  { st with
      sessions := updateSession sid (fun s => { s with status := "uploading" }) st.sessions,
      queued := st.queued ++ (List.range n).map (fun i => (sid, i)),
      qstats := { st.qstats with totalJobs := st.qstats.totalJobs + n } }

/-- One scheduler dispatch: the job at the head of the pending list starts.
The source consults no session status here — nothing filters jobs of
cancelled sessions out of the queue. -/
def dispatchNext (st : BatchSys) : BatchSys :=
  match st.queued with
  | [] => st
  | j :: rest =>
    { st with queued := rest, active := st.active ++ [j],
              started := st.started ++ [j] }

/-- Settlement of an active job with eventual outcome `r` (part_003 lines
84-126): the global queue counters change by `outcomeDelta` and the job
leaves the in-flight view; the session map is not touched (the source never
updates `session.stats`). -/
def settleJob (j : String × Nat) (r : JobOutcome) (st : BatchSys) : BatchSys :=
  { st with active := st.active.erase j, qstats := outcomeDelta r st.qstats }

/-- The `Promise.allSettled(uploadPromises).then(...)` handler
(part_001 lines 193-199): once every job promise of the session settled, the
session status is set to `completed`, whatever it was before. -/
def allSettledHandler (sid : String) (st : BatchSys) : BatchSys :=
  { st with sessions := updateSession sid (fun s => { s with status := "completed" }) st.sessions }

/-- `POST /cancel/:sessionId` (part_001 lines 250-284): the session status is
set to `cancelled` and temp files are cleaned; the route neither clears nor
filters the scheduler queue and stops no job. -/
def cancelSession (sid : String) (st : BatchSys) : BatchSys :=
  { st with sessions := updateSession sid (fun s => { s with status := "cancelled" }) st.sessions }

/-- The progress figure of `GET /status/:sessionId` (part_001 lines 226-233):
`min(100, (completed + failed) / total * 100)`, as a rational. -/
def sessionProgress (s : Session) : ℚ :=
  if s.stats.total > 0 then
    min 100 ((s.stats.completed + s.stats.failed : ℚ) / s.stats.total * 100)
  else 0

/-! ### Server-sent-events subscription (src/unnamed/part_003, `setupSSE`) -/

/-- A subscriber handler set: registered on a specific `UploadQueue`
instance, filtering on a session id. -/
structure SSEHandler where
  queueInstance : Nat
  sessionId : String
  deriving DecidableEq

/-- The seven event kinds written by `setupSSE` (part_003 lines 225-250). -/
inductive UploadEvent
  | jobStart (sid : String)
  | jobComplete (sid : String)
  | jobError (sid : String)
  | rateLimitWarning
  | rateLimitExceeded
  | rateLimitResumed
  deriving DecidableEq

/-- Whether one registered handler writes the event to its response stream
(part_003 lines 226-249): job-scoped events only on a session-id match,
rate-limit events unconditionally. -/
def handlerWrites (h : SSEHandler) (e : UploadEvent) : Bool :=
  match e with
  | .jobStart s => h.sessionId = s
  | .jobComplete s => h.sessionId = s
  | .jobError s => h.sessionId = s
  | .rateLimitWarning => true
  | .rateLimitExceeded => true
  | .rateLimitResumed => true

/-- Node `EventEmitter` delivery: an event emitted on instance `emitter`
reaches exactly the handlers registered on that same instance, and each
writes subject to its own filter. -/
def delivered (emitter : Nat) (e : UploadEvent) (hs : List SSEHandler) :
    List SSEHandler :=
  hs.filter (fun h => h.queueInstance = emitter && handlerWrites h e)

/-- The module-level `export default new UploadQueue()` (part_003 line 272):
the instance on which `addUploadJob` jobs emit, used by the routes of
part_001.  We give it instance number 0. -/
def singletonQueueId : Nat := 0

/-- `setupSSE` (part_003 lines 208-270) constructs a **new** `UploadQueue`
(`const uploadQueue = new UploadQueue()`, line 222) and registers the
subscriber's handlers on that fresh instance, whose number is therefore
different from `singletonQueueId`. -/
def setupSSEHandler (sid : String) (freshId : Nat) : SSEHandler :=
  { queueInstance := freshId, sessionId := sid }

/-! ### Concrete instances used to evaluate the code on specific inputs -/

/-- A well-formed single-file start request (file `a.txt`, 3 bytes). -/
def oneFileReq : StartRequest :=
  { owner := some "o", repo := some "r", hasFile := true, isZip := true,
    extractedFiles := [{ path := "a.txt", size := 3 }] }

/-- The session stored for `oneFileReq`. -/
def oneFileSession : Session :=
  { status := "pending", stats := { total := 1, completed := 0, failed := 0 } }

/-- The backend state right after `oneFileReq` was accepted as session `"s"`. -/
def c1State0 : BatchSys :=
  { sessions := [("s", oneFileSession)], queued := [], active := [],
    qstats := initialQueueStats, started := [] }

/-- The state after executing session `"s"`, dispatching its single job,
settling it successfully, and running the `allSettled` handler. -/
def c1Final : BatchSys :=
  allSettledHandler "s"
    (settleJob ("s", 0) JobOutcome.success
      (dispatchNext (executeSession "s" 1 c1State0)))

/-- A well-formed request whose two valid files total 120 MiB — above the
100 MiB `maxTotalSizeDefault` of `validateFileList`. -/
def oversizeReq : StartRequest :=
  { owner := some "o", repo := some "r", hasFile := true, isZip := true,
    extractedFiles :=
      [{ path := "a.txt", size := 62914560 }, { path := "b.txt", size := 62914560 }] }

/-- A two-file session used for the cancellation trace. -/
def c4State0 : BatchSys :=
  { sessions := [("s", { status := "pending", stats := { total := 2, completed := 0, failed := 0 } })],
    queued := [], active := [], qstats := initialQueueStats, started := [] }

/-- Execute session `"s"` (2 jobs), dispatch the first job, then cancel. -/
def c4AfterCancel : BatchSys :=
  cancelSession "s" (dispatchNext (executeSession "s" 2 c4State0))

end Autoclone

namespace Autoclone

/-! ## Claim theorems -/

/-- **C8** (confirmed): the path validator rejects `"../../etc/passwd"` and
rejects `"src//app.js"` (double separator), and the path normalizer maps
`"a/b/../c"` to `"a/c"`. -/
theorem c8_path_validator_cases :
    isValidPath "../../etc/passwd" = false ∧
    isValidPath "src//app.js" = false ∧
    sanitizePath "a/b/../c" = "a/c" := by
  decide

/-- **C10** (counterexample): `sanitizePath` is not idempotent.  On the input
`".<"` the first pass removes the invalid character `'<'` and keeps the part
`"."`, while a second pass drops the lone-dot part:
`sanitizePath ".<" = "."` but `sanitizePath "." = ""`. -/
theorem c10_sanitize_not_idempotent :
    sanitizePath (sanitizePath ".<") ≠ sanitizePath ".<" := by
  decide

/-- **C2** (counterexample): jobs submitted together with priorities
`[2, 0, 1]` do **not** begin in the order of ascending priority `[0, 1, 2]`
(which would be the job list `[(1,0), (2,1), (0,2)]`); the `p-queue`
dispatch order is descending priority, `[(0,2), (2,1), (1,0)]`. -/
theorem c2_priority_counterexample :
    pqOrder [2, 0, 1] ≠ [(1, 0), (2, 1), (0, 2)] ∧
    pqOrder [2, 0, 1] = [(0, 2), (2, 1), (1, 0)] := by
  decide

/-- **C3** (counterexample): a second quota-exhaustion signal observed while
the scheduler is already paused by the governor is **not** a no-op: it emits
a second Exceeded event and starts a second resume timer
(`handleRateLimitExceeded` runs unconditionally). -/
theorem c3_second_signal_second_timer :
    (handleRateLimitExceeded 0 10 initialGov).paused = true ∧
    (handleRateLimitExceeded 5000 10 (handleRateLimitExceeded 0 10 initialGov)).timers.length = 2 ∧
    (handleRateLimitExceeded 5000 10 (handleRateLimitExceeded 0 10 initialGov)).exceededCount = 2 := by
  decide

/-- **C6** (counterexample): a job whose body takes 300001 ms — above the
default 300000 ms allotment — and eventually succeeds is **not** marked
failed: with `throwOnTimeout: false` the `queue.add` promise resolves with
`undefined`, and the settled body increments no failure counter. -/
theorem c6_timeout_not_marked_failed :
    addResult uploadQueueConfig 300001 JobOutcome.success = AddResult.resolvedUndefined ∧
    (outcomeDelta JobOutcome.success initialQueueStats).failedJobs = 0 := by
  decide

/-- **C9** (code bug, evaluated): with one SSE subscriber for session `"s1"`
(registered by `setupSSE` on a freshly constructed `UploadQueue`, instance 1),
a `rateLimitExceeded` event emitted on the module singleton queue — the
instance the route jobs actually run on — is delivered to **no** subscriber,
although the handler's own filter would broadcast it; job events of the
matching session are equally lost. -/
theorem c9_sse_subscriber_receives_nothing :
    (setupSSEHandler "s1" 1).queueInstance ≠ singletonQueueId ∧
    handlerWrites (setupSSEHandler "s1" 1) UploadEvent.rateLimitExceeded = true ∧
    delivered singletonQueueId UploadEvent.rateLimitExceeded [setupSSEHandler "s1" 1] = [] ∧
    delivered singletonQueueId (UploadEvent.jobComplete "s1") [setupSSEHandler "s1" 1] = [] := by
  decide

/-- **C1** (code bug, evaluated): a one-file batch is created with
`stats = {total: 1, completed: 0, failed: 0}`; its job is executed,
dispatched and settles successfully, and the `allSettled` handler marks the
session `completed` — yet the per-session counters still read
`completed + failed = 0 ≠ 1 = total`, because every job outcome increments
only the global queue counters (`completedJobs` here reads 1) and no code
path updates `session.stats`. -/
theorem c1_session_stats_never_reach_total :
    startUpload oneFileReq = Except.ok (oneFileSession, 1, 3) ∧
    lookupSession "s" c1Final =
      some { status := "completed", stats := { total := 1, completed := 0, failed := 0 } } ∧
    (0 : Nat) + 0 ≠ 1 ∧
    c1Final.qstats.completedJobs = 1 := by
  refine ⟨rfl, by decide, by decide, by decide⟩

/-- **C4** (counterexample): after `cancel` on session `"s"` (status becomes
`cancelled`), the next scheduler dispatch still begins the remaining queued
job `("s", 1)` of the cancelled batch. -/
theorem c4_cancel_does_not_stop_dispatch :
    (lookupSession "s" c4AfterCancel).map Session.status = some "cancelled" ∧
    (dispatchNext c4AfterCancel).started = [("s", 0), ("s", 1)] := by
  decide

/-- **C5** (counterexample): a batch whose two valid files aggregate to
125829120 bytes — above the configured 100 MiB maximum of
`validateFileList`, which would reject it — is accepted by the start route
with no ValidationError, and its two jobs are created. -/
theorem c5_oversize_batch_accepted :
    (oversizeReq.extractedFiles.map (fun f => f.size)).sum > maxTotalSizeDefault ∧
    validateFileList oversizeReq.extractedFiles maxFilesDefault maxTotalSizeDefault =
      Except.error "Total size exceeds limit" ∧
    startUpload oversizeReq =
      Except.ok ({ status := "pending",
                   stats := { total := 2, completed := 0, failed := 0 } }, 2, 125829120) := by
  refine ⟨by decide, rfl, rfl⟩

/-- Folding exhaustion signals over the governor, with an arbitrary start
state: each signal adds one Exceeded emission and one timer, and any signal
leaves the queue paused. -/
theorem govFold_counts (signals : List (Int × Int)) (g : GovState) :
    let gf := signals.foldl (fun a s => handleRateLimitExceeded s.1 s.2 a) g
    gf.exceededCount = g.exceededCount + signals.length ∧
    gf.timers.length = g.timers.length + signals.length ∧
    gf.paused = (g.paused || !signals.isEmpty) := by
  induction signals generalizing g with
  | nil => simp
  | cons s rest ih =>
    have h := ih (handleRateLimitExceeded s.1 s.2 g)
    simp only [List.foldl_cons, List.length_cons, List.isEmpty_cons] at h ⊢
    refine ⟨?_, ?_, ?_⟩
    · rw [h.1]; simp [handleRateLimitExceeded]; omega
    · rw [h.2.1]; simp [handleRateLimitExceeded]; omega
    · rw [h.2.2]; simp [handleRateLimitExceeded]

/-- **C3** (amended): every quota-exhaustion signal — including one observed
while the scheduler is already paused — starts its own pause/resume cycle:
after `k` signals the governor has emitted `k` Exceeded events and holds `k`
pending resume timers, and each timer firing emits its own Resumed event.
No deduplication of concurrent exhaustion reports takes place. -/
theorem c3_every_signal_starts_cycle (signals : List (Int × Int)) :
    (govAfterSignals signals).exceededCount = signals.length ∧
    (govAfterSignals signals).timers.length = signals.length ∧
    (govAfterSignals signals).paused = !signals.isEmpty ∧
    ∀ w rest, (govAfterSignals signals).timers = w :: rest →
      (fireResumeTimer (govAfterSignals signals)).resumedCount =
        (govAfterSignals signals).resumedCount + 1 ∧
      (fireResumeTimer (govAfterSignals signals)).paused = false := by
  have h := govFold_counts signals initialGov
  simp only [initialGov, List.length_nil, Nat.zero_add, Bool.false_or] at h
  rw [govAfterSignals]
  refine ⟨h.1, by simpa using h.2.1, h.2.2, ?_⟩
  intro w rest hw
  constructor <;> simp [fireResumeTimer, hw]

/-- **C6** (amended): a job whose body exceeds its allotted duration
(default 300000 ms) is **not** failed by the timeout: the queue is built with
`throwOnTimeout: false`, so the `queue.add` promise merely resolves with
`undefined` and the concurrency slot is released, while the job body keeps
running and is counted by its eventual outcome (one `completedJobs` increment
on success, one `failedJobs` increment on failure); other jobs' counters and
the queue itself are unaffected. -/
theorem c6_timeout_amended (d : Nat) (r : JobOutcome) (q : QueueStats)
    (h : d > uploadQueueConfig.timeout) :
    addResult uploadQueueConfig d r = AddResult.resolvedUndefined ∧
    uploadQueueConfig.throwOnTimeout = false ∧
    (outcomeDelta r q).failedJobs =
      q.failedJobs + (match r with | .success => 0 | .failure _ _ => 1) ∧
    (outcomeDelta r q).completedJobs =
      q.completedJobs + (match r with | .success => 1 | .failure _ _ => 0) ∧
    (outcomeDelta r q).totalJobs = q.totalJobs := by
  have h' : 300000 < d := h
  refine ⟨?_, rfl, ?_, ?_, ?_⟩
  · simp [addResult, uploadQueueConfig, h']
  all_goals cases r with
    | success => simp [outcomeDelta]
    | failure st rem => simp only [outcomeDelta]; split <;> simp

/-- Witness for `c6_timeout_amended` at a 300001 ms failing job. -/
theorem c6_timeout_amended_witness :
    addResult uploadQueueConfig 300001 (JobOutcome.failure (some 500) none) =
      AddResult.resolvedUndefined ∧
    uploadQueueConfig.throwOnTimeout = false ∧
    (outcomeDelta (JobOutcome.failure (some 500) none) initialQueueStats).failedJobs =
      initialQueueStats.failedJobs + 1 ∧
    (outcomeDelta (JobOutcome.failure (some 500) none) initialQueueStats).completedJobs =
      initialQueueStats.completedJobs + 0 ∧
    (outcomeDelta (JobOutcome.failure (some 500) none) initialQueueStats).totalJobs =
      initialQueueStats.totalJobs :=
  c6_timeout_amended 300001 (JobOutcome.failure (some 500) none) initialQueueStats
    (by decide)

/-- **C7** (confirmed): when a job fails with the quota-exhaustion signature
(status 403 and `x-ratelimit-remaining` `'0'`), the governor bumps the
exhaustion counter, schedules one resume timer with wait
`max 1000 (resetSec·1000 − now + 1000)`, pauses the queue and emits the
Exceeded event in the same step; firing the pending resume timer un-pauses
the queue and emits one Resumed event. -/
theorem c7_rate_limit_cycle (status : Option Nat) (remaining : Option String)
    (now resetSec : Int) (g : GovState)
    (hst : status = some 403) (hrem : remaining = some "0") :
    (onJobError status remaining now resetSec g).rateLimitHits = g.rateLimitHits + 1 ∧
    (onJobError status remaining now resetSec g).timers =
      g.timers ++ [max 1000 (resetSec * 1000 - now + 1000)] ∧
    (onJobError status remaining now resetSec g).paused = true ∧
    (onJobError status remaining now resetSec g).exceededCount = g.exceededCount + 1 ∧
    (fireResumeTimer (onJobError status remaining now resetSec g)).paused = false ∧
    (fireResumeTimer (onJobError status remaining now resetSec g)).resumedCount =
      (onJobError status remaining now resetSec g).resumedCount + 1 := by
  subst hst hrem
  have hcase : isRateLimitError (some 403) (some "0") = true := by decide
  refine ⟨?_, ?_, ?_, ?_, ?_, ?_⟩ <;>
    rcases hl : g.timers with _ | ⟨a, l⟩ <;>
      simp [onJobError, hcase, handleRateLimitExceeded, fireResumeTimer, hl]

/-- Witness for `c7_rate_limit_cycle`: the 403 / remaining-0 failure at
`now = 5000`, `resetSec = 10`, from the initial governor state. -/
theorem c7_rate_limit_cycle_witness :
    (onJobError (some 403) (some "0") 5000 10 initialGov).rateLimitHits =
      initialGov.rateLimitHits + 1 ∧
    (onJobError (some 403) (some "0") 5000 10 initialGov).timers =
      initialGov.timers ++ [max 1000 (10 * 1000 - 5000 + 1000)] ∧
    (onJobError (some 403) (some "0") 5000 10 initialGov).paused = true ∧
    (onJobError (some 403) (some "0") 5000 10 initialGov).exceededCount =
      initialGov.exceededCount + 1 ∧
    (fireResumeTimer (onJobError (some 403) (some "0") 5000 10 initialGov)).paused = false ∧
    (fireResumeTimer (onJobError (some 403) (some "0") 5000 10 initialGov)).resumedCount =
      (onJobError (some 403) (some "0") 5000 10 initialGov).resumedCount + 1 :=
  c7_rate_limit_cycle (some 403) (some "0") 5000 10 initialGov rfl rfl

/-- `find?` after a point update of the session map. -/
theorem find?_updateSession (sid : String) (f : Session → Session)
    (ss : List (String × Session)) :
    (updateSession sid f ss).find? (fun p => p.1 = sid) =
      (ss.find? (fun p => p.1 = sid)).map (fun p => (p.1, f p.2)) := by
  induction ss with
  | nil => rfl
  | cons p ps ih =>
    by_cases h : p.1 = sid
    · simp only [updateSession, List.map_cons, if_pos h]
      rw [List.find?_cons_of_pos _ (by simp [h]), List.find?_cons_of_pos _ (by simp [h])]
      rfl
    · simp only [updateSession, List.map_cons, if_neg h]
      rw [List.find?_cons_of_neg _ (by simp [h]), List.find?_cons_of_neg _ (by simp [h])]
      exact ih

/-- Looking a session up after a point update rewrites exactly its record. -/
theorem lookupSession_updateSession (sid : String) (f : Session → Session)
    (st : BatchSys) :
    lookupSession sid { st with sessions := updateSession sid f st.sessions } =
      (lookupSession sid st).map f := by
  show ((updateSession sid f st.sessions).find? _).map _ = _
  rw [find?_updateSession, Option.map_map]
  show _ = Option.map f (Option.map _ _)
  rw [Option.map_map]
  rfl

/-- A scheduler dispatch never touches the session map. -/
theorem dispatchNext_sessions (st : BatchSys) :
    (dispatchNext st).sessions = st.sessions := by
  rcases hq : st.queued with _ | ⟨a, l⟩ <;> simp [dispatchNext, hq]

/-- Session lookup depends only on the session map. -/
theorem lookupSession_congr (sid : String) (st1 st2 : BatchSys)
    (h : st1.sessions = st2.sessions) :
    lookupSession sid st1 = lookupSession sid st2 := by
  simp [lookupSession, h]

/-- **C4** (amended): `cancel` sets the batch status to `cancelled` and job
outcomes are indeed never counted into the batch's stats (no outcome ever
touches the session map) — but cancellation prevents nothing: the scheduler
queue is left intact, the next dispatch still begins the queued job of the
cancelled batch, and once all of the batch's job promises settle the
`allSettled` handler overwrites the status with `completed`. -/
theorem c4_cancel_amended (st : BatchSys) (sid : String) (s : Session)
    (j : String × Nat) (rest : List (String × Nat)) (r : JobOutcome)
    (hs : lookupSession sid st = some s) (hq : st.queued = j :: rest) :
    lookupSession sid (cancelSession sid st) = some { s with status := "cancelled" } ∧
    (cancelSession sid st).queued = st.queued ∧
    (dispatchNext (cancelSession sid st)).started = st.started ++ [j] ∧
    (settleJob j r (dispatchNext (cancelSession sid st))).sessions =
      (cancelSession sid st).sessions ∧
    lookupSession sid
        (allSettledHandler sid (settleJob j r (dispatchNext (cancelSession sid st)))) =
      some { s with status := "completed" } := by
  have h1 : lookupSession sid (cancelSession sid st) =
      some { s with status := "cancelled" } := by
    show lookupSession sid { st with sessions := updateSession sid _ st.sessions } = _
    rw [lookupSession_updateSession, hs]; rfl
  have hsess : (settleJob j r (dispatchNext (cancelSession sid st))).sessions =
      (cancelSession sid st).sessions := by
    show (dispatchNext (cancelSession sid st)).sessions = _
    exact dispatchNext_sessions _
  refine ⟨h1, rfl, ?_, hsess, ?_⟩
  · simp [dispatchNext, cancelSession, hq]
  · show lookupSession sid
        { settleJob j r (dispatchNext (cancelSession sid st)) with
          sessions := updateSession sid _ _ } = _
    rw [lookupSession_updateSession]
    rw [lookupSession_congr sid _ (cancelSession sid st) hsess, h1]
    rfl

/-- Witness for `c4_cancel_amended` on the concrete two-job session trace. -/
theorem c4_cancel_amended_witness :
    lookupSession "s" (cancelSession "s" (dispatchNext (executeSession "s" 2 c4State0))) =
      some { status := "cancelled", stats := { total := 2, completed := 0, failed := 0 } } ∧
    (cancelSession "s" (dispatchNext (executeSession "s" 2 c4State0))).queued =
      (dispatchNext (executeSession "s" 2 c4State0)).queued ∧
    (dispatchNext (cancelSession "s" (dispatchNext (executeSession "s" 2 c4State0)))).started =
      (dispatchNext (executeSession "s" 2 c4State0)).started ++ [("s", 1)] ∧
    (settleJob ("s", 1) JobOutcome.success
        (dispatchNext (cancelSession "s" (dispatchNext (executeSession "s" 2 c4State0))))).sessions =
      (cancelSession "s" (dispatchNext (executeSession "s" 2 c4State0))).sessions ∧
    lookupSession "s"
        (allSettledHandler "s" (settleJob ("s", 1) JobOutcome.success
          (dispatchNext (cancelSession "s" (dispatchNext (executeSession "s" 2 c4State0)))))) =
      some { status := "completed", stats := { total := 2, completed := 0, failed := 0 } } :=
  c4_cancel_amended (dispatchNext (executeSession "s" 2 c4State0)) "s"
    { status := "uploading", stats := { total := 2, completed := 0, failed := 0 } }
    ("s", 1) [] JobOutcome.success (by decide) (by decide)

/-- **C5** (amended): batch creation fails synchronously — creating no
session — exactly when the owner or repository field is missing (or empty),
no file was provided, the file is not a ZIP, or no extracted path survives
`isValidPath`.  No configured maximum on the file count or on the aggregate
size is enforced: `validateFileList` exists in the repository but the route
never calls it. -/
theorem c5_validation_amended (req : StartRequest) :
    (∃ e, startUpload req = Except.error e) ↔
      (fieldMissing req.owner = true ∨ fieldMissing req.repo = true ∨
       req.hasFile = false ∨ req.isZip = false ∨ validFiles req = []) := by
  cases ho : fieldMissing req.owner <;> cases hr : fieldMissing req.repo <;>
    cases hf : req.hasFile <;> cases hz : req.isZip <;>
    cases hv : (validFiles req).isEmpty <;>
    simp_all [startUpload, List.isEmpty_iff]

/-- Stable insertion yields a permutation of pushing the element on top. -/
theorem pqEnqueue_perm (q : List (Nat × Int)) (e : Nat × Int) :
    (pqEnqueue q e).Perm (e :: q) := by
  induction q with
  | nil => rfl
  | cons x xs ih =>
    rw [pqEnqueue]
    by_cases h : e.2 ≤ x.2
    · rw [if_pos h]
      exact (ih.cons x).trans (List.Perm.swap e x xs)
    · rw [if_neg h]

/-- Stable insertion of a later-submitted job preserves the dispatch
ordering relation. -/
theorem pqEnqueue_pairwise (q : List (Nat × Int)) (e : Nat × Int)
    (hq : q.Pairwise pqR) (hidx : ∀ x ∈ q, x.1 < e.1) :
    (pqEnqueue q e).Pairwise pqR := by
  induction q with
  | nil => simp [pqEnqueue]
  | cons x xs ih =>
    rw [pqEnqueue]
    rcases List.pairwise_cons.mp hq with ⟨hx, hxs⟩
    by_cases h : e.2 ≤ x.2
    · rw [if_pos h]
      refine List.pairwise_cons.mpr
        ⟨?_, ih hxs (fun y hy => hidx y (List.mem_cons_of_mem x hy))⟩
      intro y hy
      rcases List.mem_cons.mp ((pqEnqueue_perm xs e).subset hy) with rfl | hy'
      · rcases lt_or_eq_of_le h with hlt | heq
        · exact Or.inl hlt
        · exact Or.inr ⟨heq.symm, hidx x (List.mem_cons_self x xs)⟩
      · exact hx y hy'
    · rw [if_neg h]
      have hxe : x.2 < e.2 := lt_of_not_le h
      refine List.pairwise_cons.mpr ⟨?_, hq⟩
      intro y hy
      rcases List.mem_cons.mp hy with rfl | hy'
      · exact Or.inl hxe
      · rcases hx y hy' with h1 | h2
        · exact Or.inl (h1.trans hxe)
        · exact Or.inl (h2.1 ▸ hxe)

/-- Folding enqueues of jobs indexed from `start` over a well-ordered pending
list keeps the ordering relation and the job multiset. -/
theorem pqFold_invariant (ps : List Int) (start : Nat) (q : List (Nat × Int))
    (hq : q.Pairwise pqR) (hidx : ∀ x ∈ q, x.1 < start) :
    ((List.enumFrom start ps).foldl pqEnqueue q).Pairwise pqR ∧
    ((List.enumFrom start ps).foldl pqEnqueue q).Perm (q ++ List.enumFrom start ps) := by
  induction ps generalizing start q with
  | nil => exact ⟨by simpa using hq, by simp⟩
  | cons p ps ih =>
    have henum : List.enumFrom start (p :: ps) =
        (start, p) :: List.enumFrom (start + 1) ps := rfl
    rw [henum, List.foldl_cons]
    have hq' : (pqEnqueue q (start, p)).Pairwise pqR :=
      pqEnqueue_pairwise q (start, p) hq hidx
    have hidx' : ∀ x ∈ pqEnqueue q (start, p), x.1 < start + 1 := by
      intro x hx
      rcases List.mem_cons.mp ((pqEnqueue_perm q (start, p)).subset hx) with rfl | hx'
      · exact Nat.lt_succ_self start
      · exact Nat.lt_succ_of_lt (hidx x hx')
    obtain ⟨hp, hperm⟩ := ih (start + 1) (pqEnqueue q (start, p)) hq' hidx'
    refine ⟨hp, hperm.trans ?_⟩
    have h1 : (pqEnqueue q (start, p) ++ List.enumFrom (start + 1) ps).Perm
        (((start, p) :: q) ++ List.enumFrom (start + 1) ps) :=
      (pqEnqueue_perm q (start, p)).append_right _
    exact h1.trans List.perm_middle.symm

/-! #### Structure of one `sanitizePath` pass (toward the C10 amendment) -/

/-- Trimming only removes characters. -/
theorem trimBy_subset (p : Char → Bool) (l : List Char) : trimBy p l ⊆ l := by
  intro c hc
  rw [trimBy, List.mem_reverse] at hc
  have h1 := List.dropWhile_subset p hc
  rw [List.mem_reverse] at h1
  exact List.dropWhile_subset p h1

/-- A list whose trailing `getLast?` exists is non-empty after `dropWhile`,
and that last character equals the original last character. -/
theorem getLast?_dropWhile (p : Char → Bool) (l : List Char) (c : Char)
    (hc : (l.dropWhile p).getLast? = some c) : l.getLast? = some c := by
  obtain ⟨t, ht⟩ := List.dropWhile_suffix (l := l) p
  have hne : l.dropWhile p ≠ [] := by
    intro h; rw [h] at hc; cases hc
  rw [← ht, List.getLast?_append_of_ne_nil t hne]
  exact hc

/-- The head of a trimmed list does not satisfy the trimming predicate. -/
theorem trimBy_head? (p : Char → Bool) (l : List Char) (c : Char)
    (hc : (trimBy p l).head? = some c) : p c = false := by
  rw [trimBy, List.head?_reverse] at hc
  have h1 := getLast?_dropWhile p (l.dropWhile p).reverse c hc
  rw [List.getLast?_reverse] at h1
  have h2 := List.head?_dropWhile_not p l
  rw [h1] at h2
  exact h2

/-- The last character of a trimmed list does not satisfy the predicate. -/
theorem trimBy_getLast? (p : Char → Bool) (l : List Char) (c : Char)
    (hc : (trimBy p l).getLast? = some c) : p c = false := by
  rw [trimBy, List.getLast?_reverse] at hc
  have h2 := List.head?_dropWhile_not p (l.dropWhile p).reverse
  rw [hc] at h2
  exact h2

/-- `dropWhile` is the identity when the head does not satisfy the
predicate. -/
theorem dropWhile_eq_self_of_head (p : Char → Bool) (l : List Char)
    (h : ∀ c, l.head? = some c → p c = false) : l.dropWhile p = l := by
  cases l with
  | nil => rfl
  | cons a l => rw [List.dropWhile_cons, h a rfl]; simp

/-- Trimming is the identity on lists that are already trimmed. -/
theorem trimBy_eq_self (p : Char → Bool) (l : List Char)
    (h1 : ∀ c, l.head? = some c → p c = false)
    (h2 : ∀ c, l.getLast? = some c → p c = false) : trimBy p l = l := by
  rw [trimBy, dropWhile_eq_self_of_head p l h1,
    dropWhile_eq_self_of_head p l.reverse
      (by intro c hc; rw [List.head?_reverse] at hc; exact h2 c hc),
    List.reverse_reverse]

/-- Collapsing dot runs keeps the head character. -/
theorem collapseDots_head? : ∀ l : List Char, (collapseDots l).head? = l.head?
  | [] => rfl
  | [_] => rfl
  | c :: d :: rest => by
    rw [collapseDots]
    by_cases h : (c = '.' && d = '.') = true
    · rw [if_pos h, collapseDots_head? (d :: rest)]
      rcases Bool.and_eq_true_iff.mp h with ⟨h1, h2⟩
      rw [of_decide_eq_true h1, of_decide_eq_true h2]
      rfl
    · rw [if_neg h]; rfl

/-- Collapsing dot runs only removes characters. -/
theorem collapseDots_subset : ∀ l : List Char, collapseDots l ⊆ l
  | [] => by simp [collapseDots]
  | [c] => by simp [collapseDots]
  | c :: d :: rest => by
    rw [collapseDots]
    by_cases h : (c = '.' && d = '.') = true
    · rw [if_pos h]
      exact fun x hx => List.mem_cons_of_mem c (collapseDots_subset (d :: rest) hx)
    · rw [if_neg h]
      intro x hx
      rcases List.mem_cons.mp hx with rfl | hx'
      · exact List.mem_cons_self x _
      · exact List.mem_cons_of_mem c (collapseDots_subset (d :: rest) hx')

/-- After collapsing, no two adjacent characters are both dots. -/
theorem collapseDots_chain : ∀ l : List Char, (collapseDots l).Chain' notDD
  | [] => List.chain'_nil
  | [c] => List.chain'_singleton c
  | c :: d :: rest => by
    rw [collapseDots]
    by_cases h : (c = '.' && d = '.') = true
    · rw [if_pos h]; exact collapseDots_chain (d :: rest)
    · rw [if_neg h]
      refine List.chain'_cons'.mpr ⟨?_, collapseDots_chain (d :: rest)⟩
      intro y hy
      rw [collapseDots_head? (d :: rest)] at hy
      obtain rfl : d = y := by simpa using hy
      rintro ⟨h1, h2⟩
      exact h (by simp [h1, h2])

/-- The last character after collapsing is the original last character or a
dot. -/
theorem collapseDots_getLast? : ∀ l : List Char,
    (collapseDots l).getLast? = l.getLast? ∨ (collapseDots l).getLast? = some '.'
  | [] => Or.inl rfl
  | [_] => Or.inl rfl
  | c :: d :: rest => by
    have hne : collapseDots (d :: rest) ≠ [] := by
      intro hx
      have h0 := collapseDots_head? (d :: rest)
      rw [hx] at h0; cases h0
    rw [collapseDots]
    by_cases h : (c = '.' && d = '.') = true
    · rw [if_pos h]
      rcases collapseDots_getLast? (d :: rest) with h1 | h1
      · exact Or.inl (by rw [h1, List.getLast?_cons_cons])
      · exact Or.inr h1
    · rw [if_neg h]
      rcases hx : collapseDots (d :: rest) with _ | ⟨y, ys⟩
      · exact absurd hx hne
      · rcases collapseDots_getLast? (d :: rest) with h1 | h1
        · exact Or.inl (by
            rw [List.getLast?_cons_cons, ← hx, h1, List.getLast?_cons_cons])
        · exact Or.inr (by rw [List.getLast?_cons_cons, ← hx, h1])

/-- Collapsing is the identity on lists with no two adjacent dots. -/
theorem collapseDots_eq_self : ∀ l : List Char, l.Chain' notDD → collapseDots l = l
  | [], _ => rfl
  | [_], _ => rfl
  | c :: d :: rest, h => by
    rcases List.chain'_cons.mp h with ⟨hcd, htail⟩
    rw [collapseDots, if_neg (by
      intro hb
      rcases Bool.and_eq_true_iff.mp hb with ⟨h1, h2⟩
      exact hcd ⟨of_decide_eq_true h1, of_decide_eq_true h2⟩),
      collapseDots_eq_self (d :: rest) htail]

/-- Splitting never yields an empty list of parts. -/
theorem splitSlash_ne_nil : ∀ l : List Char, splitSlash l ≠ []
  | [] => by simp [splitSlash]
  | c :: cs => by
    rw [splitSlash]
    by_cases h : c = '/'
    · rw [if_pos h]; simp
    · rw [if_neg h]
      rcases hx : splitSlash cs with _ | ⟨p, ps⟩ <;> simp

/-- Every character of a split part comes from the input and is not a
slash. -/
theorem splitSlash_chars : ∀ l : List Char, ∀ p ∈ splitSlash l, ∀ c ∈ p,
    c ∈ l ∧ c ≠ '/'
  | [] => by
    intro p hp c hc
    simp [splitSlash] at hp
    subst hp; cases hc
  | a :: cs => by
    intro p hp c hc
    rw [splitSlash] at hp
    by_cases h : a = '/'
    · rw [if_pos h] at hp
      rcases List.mem_cons.mp hp with rfl | hp'
      · cases hc
      · have h1 := splitSlash_chars cs p hp' c hc
        exact ⟨List.mem_cons_of_mem a h1.1, h1.2⟩
    · rw [if_neg h] at hp
      rcases hx : splitSlash cs with _ | ⟨q, qs⟩
      · exact absurd hx (splitSlash_ne_nil cs)
      · rw [hx] at hp
        rcases List.mem_cons.mp hp with rfl | hp'
        · rcases List.mem_cons.mp hc with rfl | hc'
          · exact ⟨List.mem_cons_self _ _, h⟩
          · have h1 := splitSlash_chars cs q (by rw [hx]; exact List.mem_cons_self q qs) c hc'
            exact ⟨List.mem_cons_of_mem a h1.1, h1.2⟩
        · have h1 := splitSlash_chars cs p (by rw [hx]; exact List.mem_cons_of_mem q hp') c hc
          exact ⟨List.mem_cons_of_mem a h1.1, h1.2⟩

/-- A slash-free list splits into itself as its only part. -/
theorem splitSlash_no_slash : ∀ p : List Char, (∀ c ∈ p, c ≠ '/') →
    splitSlash p = [p]
  | [], _ => rfl
  | c :: cs, h => by
    rw [splitSlash, if_neg (h c (List.mem_cons_self c cs)),
      splitSlash_no_slash cs (fun x hx => h x (List.mem_cons_of_mem c hx))]

/-- Splitting a slash-free part followed by a slash peels off that part. -/
theorem splitSlash_append : ∀ p rest : List Char, (∀ c ∈ p, c ≠ '/') →
    splitSlash (p ++ '/' :: rest) = p :: splitSlash rest
  | [], rest, _ => by rw [List.nil_append, splitSlash, if_pos rfl]
  | c :: cs, rest, h => by
    rw [List.cons_append, splitSlash, if_neg (h c (List.mem_cons_self c cs)),
      splitSlash_append cs rest (fun x hx => h x (List.mem_cons_of_mem c hx))]

/-- The unfolding of `joinSlash` on two or more parts. -/
theorem joinSlash_cons_cons (p q : List Char) (ps : List (List Char)) :
    joinSlash (p :: q :: ps) = p ++ '/' :: joinSlash (q :: ps) := rfl

/-- Every character of a join is a separator or a character of a part. -/
theorem joinSlash_chars : ∀ ps : List (List Char), ∀ c ∈ joinSlash ps,
    c = '/' ∨ ∃ p ∈ ps, c ∈ p
  | [] => by intro c hc; cases hc
  | [p] => by
    intro c hc
    exact Or.inr ⟨p, List.mem_cons_self p [], hc⟩
  | p :: q :: ps => by
    intro c hc
    rw [joinSlash_cons_cons] at hc
    rcases List.mem_append.mp hc with h1 | h2
    · exact Or.inr ⟨p, List.mem_cons_self _ _, h1⟩
    · rcases List.mem_cons.mp h2 with rfl | h3
      · exact Or.inl rfl
      · rcases joinSlash_chars (q :: ps) c h3 with h4 | ⟨r, hr, hcr⟩
        · exact Or.inl h4
        · exact Or.inr ⟨r, List.mem_cons_of_mem p hr, hcr⟩

/-- A join headed by a non-empty part is non-empty. -/
theorem joinSlash_cons_ne_nil : ∀ (q : List Char) (ps : List (List Char)),
    q ≠ [] → joinSlash (q :: ps) ≠ []
  | _, [], hq => hq
  | q, r :: ps, _ => by rw [joinSlash_cons_cons]; simp

/-- The head of a join is the head of its first part. -/
theorem joinSlash_head? : ∀ (p : List Char) (ps : List (List Char)), p ≠ [] →
    (joinSlash (p :: ps)).head? = p.head?
  | _, [], _ => rfl
  | p, q :: ps, hp => by
    rw [joinSlash_cons_cons]
    exact List.head?_append_of_ne_nil p hp

/-- The last character of a join is the last character of one of its
parts. -/
theorem joinSlash_getLast? : ∀ (p : List Char) (ps : List (List Char)),
    (∀ q ∈ p :: ps, q ≠ ([] : List Char)) →
    ∃ q, q ∈ p :: ps ∧ (joinSlash (p :: ps)).getLast? = q.getLast?
  | p, [], _ => ⟨p, List.mem_cons_self _ _, rfl⟩
  | p, q :: ps, h => by
    obtain ⟨r, hr, hlast⟩ :=
      joinSlash_getLast? q ps (fun x hx => h x (List.mem_cons_of_mem p hx))
    refine ⟨r, List.mem_cons_of_mem p hr, ?_⟩
    have hne := joinSlash_cons_ne_nil q ps (h q (List.mem_cons_of_mem p (List.mem_cons_self q ps)))
    rcases hx : joinSlash (q :: ps) with _ | ⟨y, ys⟩
    · exact absurd hx hne
    · rw [hx] at hlast
      rw [joinSlash_cons_cons, hx,
        List.getLast?_append_of_ne_nil p (by simp : ('/' :: y :: ys) ≠ []),
        List.getLast?_cons_cons, hlast]

/-- Splitting a join of slash-free parts recovers the parts. -/
theorem splitSlash_joinSlash : ∀ ps : List (List Char),
    (∀ p ∈ ps, ∀ c ∈ p, c ≠ '/') → ps ≠ [] → splitSlash (joinSlash ps) = ps
  | [], _, hne => absurd rfl hne
  | [p], h, _ => splitSlash_no_slash p (h p (List.mem_cons_self p []))
  | p :: q :: ps, h, _ => by
    rw [joinSlash_cons_cons, splitSlash_append p _ (h p (List.mem_cons_self _ _)),
      splitSlash_joinSlash (q :: ps) (fun x hx => h x (List.mem_cons_of_mem p hx))
        (by simp)]

/-- Every part kept by the processing loop is the cleaning of an input
part (the accumulator only ever loses elements). -/
theorem processParts_mem : ∀ (ps acc : List (List Char)) (q : List Char),
    q ∈ processParts acc ps →
    q ∈ acc ∨ ∃ p, p ∈ ps ∧ q = cleanPart p ∧ cleanPart p ≠ []
  | [], _, _, hq => Or.inl hq
  | p :: ps, acc, q, hq => by
    simp only [processParts] at hq
    split at hq
    · rcases processParts_mem ps acc q hq with h | ⟨r, hr, he⟩
      · exact Or.inl h
      · exact Or.inr ⟨r, List.mem_cons_of_mem p hr, he⟩
    · split at hq
      · rcases processParts_mem ps acc.dropLast q hq with h | ⟨r, hr, he⟩
        · exact Or.inl (List.dropLast_subset acc h)
        · exact Or.inr ⟨r, List.mem_cons_of_mem p hr, he⟩
      · split at hq
        · rcases processParts_mem ps acc q hq with h | ⟨r, hr, he⟩
          · exact Or.inl h
          · exact Or.inr ⟨r, List.mem_cons_of_mem p hr, he⟩
        · rename_i hcp
          rcases processParts_mem ps (acc ++ [cleanPart p]) q hq with h | ⟨r, hr, he⟩
          · rcases List.mem_append.mp h with h' | h'
            · exact Or.inl h'
            · exact Or.inr ⟨p, List.mem_cons_self p ps, by simpa using h', hcp⟩
          · exact Or.inr ⟨r, List.mem_cons_of_mem p hr, he⟩

/-- A non-empty cleaned part satisfies the pass invariant, provided the raw
part already carried no separator, backslash or null byte. -/
theorem cleanPart_good (p : List Char)
    (hch : ∀ c ∈ p, c ≠ '/' ∧ c ≠ '\\' ∧ c ≠ '\x00')
    (hne : cleanPart p ≠ []) : GoodPart (cleanPart p) := by
  have hsub : ∀ c ∈ cleanPart p, c ∈ p.filter (fun c => !invalidChar c) :=
    fun c hc => trimBy_subset _ _ (collapseDots_subset _ hc)
  refine ⟨hne, ?_, ?_, ?_, collapseDots_chain _⟩
  · intro c hc
    have h1 := hsub c hc
    rw [List.mem_filter] at h1
    have h2 := hch c h1.1
    exact ⟨h2.1, h2.2.1, h2.2.2, by simpa using h1.2⟩
  · intro c hc
    rw [cleanPart, collapseDots_head?] at hc
    exact trimBy_head? _ _ c hc
  · intro c hc
    rw [cleanPart] at hc
    rcases collapseDots_getLast?
        (trimBy jsWhitespace (p.filter (fun c => !invalidChar c))) with h1 | h1
    · rw [h1] at hc
      exact trimBy_getLast? _ _ c hc
    · rw [h1, Option.some.injEq] at hc
      rw [← hc]
      decide

/-- Cleaning is the identity on parts already satisfying the invariant. -/
theorem cleanPart_eq_self (p : List Char) (hg : GoodPart p) : cleanPart p = p := by
  rw [cleanPart,
    List.filter_eq_self.mpr (fun a ha => by simpa using (hg.chars a ha).2.2.2),
    trimBy_eq_self jsWhitespace p hg.hd hg.lst,
    collapseDots_eq_self p hg.chain]

/-- On parts already satisfying the invariant, the processing loop only
removes the bare-dot parts. -/
theorem processParts_good : ∀ (ps acc : List (List Char)),
    (∀ p ∈ ps, GoodPart p) →
    processParts acc ps = acc ++ ps.filter (fun p => p ≠ ['.'])
  | [], acc, _ => by simp [processParts]
  | p :: ps, acc, h => by
    have hp := h p (List.mem_cons_self p ps)
    have htail : ∀ q ∈ ps, GoodPart q := fun q hq => h q (List.mem_cons_of_mem p hq)
    simp only [processParts]
    by_cases hdot : p = ['.']
    · rw [if_pos (by simp [hdot]), processParts_good ps acc htail,
        List.filter_cons_of_neg (by simp [hdot])]
    · rw [if_neg (by simp [hp.ne, hdot])]
      have h2 : p ≠ ['.', '.'] := by
        intro hx
        have h3 := hp.chain
        rw [hx] at h3
        rcases List.chain'_cons.mp h3 with ⟨hdd, _⟩
        exact hdd ⟨rfl, rfl⟩
      rw [if_neg h2, cleanPart_eq_self p hp, if_neg hp.ne,
        processParts_good ps (acc ++ [p]) htail,
        List.filter_cons_of_pos (by simp [hdot])]
      simp

/-- Characters surviving preprocessing contain no null byte and no
backslash. -/
theorem preprocessL_chars (l : List Char) :
    ∀ c ∈ preprocessL l, c ≠ '\x00' ∧ c ≠ '\\' := by
  intro c hc
  rw [preprocessL] at hc
  have h1 := trimBy_subset _ _ (trimBy_subset _ _ hc)
  rw [List.mem_map] at h1
  obtain ⟨a, ha, rfl⟩ := h1
  rw [List.mem_filter] at ha
  by_cases hab : a = '\\'
  · rw [if_pos hab]
    exact ⟨by decide, by decide⟩
  · rw [if_neg hab]
    exact ⟨by simpa using ha.2, hab⟩

/-- `map` is the identity when the function fixes every member. -/
theorem map_eq_self_of (f : Char → Char) (l : List Char)
    (h : ∀ c ∈ l, f c = c) : l.map f = l := by
  induction l with
  | nil => rfl
  | cons a l ih =>
    rw [List.map_cons, h a (List.mem_cons_self a l),
      ih (fun c hc => h c (List.mem_cons_of_mem a hc))]

/-- One `sanitizePath` pass produces a join of parts that all satisfy the
pass invariant. -/
theorem sanitizePathL_parts (l : List Char) :
    ∃ ps : List (List Char), sanitizePathL l = joinSlash ps ∧ ∀ p ∈ ps, GoodPart p := by
  refine ⟨processParts [] (splitSlash (preprocessL l)), rfl, ?_⟩
  intro p hp
  rcases processParts_mem _ _ _ hp with h | ⟨r, hr, rfl, hne⟩
  · cases h
  · refine cleanPart_good r ?_ hne
    intro c hc
    have h1 := splitSlash_chars _ r hr c hc
    have h2 := preprocessL_chars l c h1.1
    exact ⟨h1.2, h2.2, h2.1⟩

/-- Applying `sanitizePath` to a join of invariant parts only removes the
bare-dot parts. -/
theorem sanitize_join_good (ps : List (List Char)) (h : ∀ p ∈ ps, GoodPart p) :
    sanitizePathL (joinSlash ps) = joinSlash (ps.filter (fun p => p ≠ ['.'])) := by
  rcases ps with _ | ⟨p, ps'⟩
  · rfl
  · have hp := h p (List.mem_cons_self p ps')
    have hjchars : ∀ c ∈ joinSlash (p :: ps'), c = '/' ∨
        (c ≠ '/' ∧ c ≠ '\\' ∧ c ≠ '\x00' ∧ invalidChar c = false) := by
      intro c hc
      rcases joinSlash_chars _ c hc with h1 | ⟨q, hq, hcq⟩
      · exact Or.inl h1
      · exact Or.inr ((h q hq).chars c hcq)
    have hpre : preprocessL (joinSlash (p :: ps')) = joinSlash (p :: ps') := by
      rw [preprocessL,
        List.filter_eq_self.mpr (fun a ha => by
          rcases hjchars a ha with h1 | h1
          · simp [h1]
          · simpa using h1.2.2.1),
        map_eq_self_of _ _ (fun c hc => by
          rcases hjchars c hc with h1 | h1
          · rw [if_neg (by rw [h1]; decide)]
          · rw [if_neg h1.2.1]),
        trimBy_eq_self jsWhitespace _
          (fun c hc => by
            rw [joinSlash_head? p ps' hp.ne] at hc
            exact hp.hd c hc)
          (fun c hc => by
            obtain ⟨q, hq, hlast⟩ := joinSlash_getLast? p ps' (fun q hq => (h q hq).ne)
            rw [hlast] at hc
            exact (h q hq).lst c hc),
        trimBy_eq_self _ _
          (fun c hc => by
            rw [joinSlash_head? p ps' hp.ne] at hc
            have hcp := List.mem_of_mem_head? (Option.mem_def.mpr hc)
            simpa using (hp.chars c hcp).1)
          (fun c hc => by
            obtain ⟨q, hq, hlast⟩ := joinSlash_getLast? p ps' (fun q hq => (h q hq).ne)
            rw [hlast] at hc
            have hcq := List.mem_of_mem_getLast? (Option.mem_def.mpr hc)
            simpa using ((h q hq).chars c hcq).1)]
    show joinSlash (processParts [] (splitSlash (preprocessL (joinSlash (p :: ps'))))) = _
    rw [hpre,
      splitSlash_joinSlash (p :: ps')
        (fun q hq c hc => ((h q hq).chars c hc).1) (by simp),
      processParts_good (p :: ps') [] h, List.nil_append]

/-- Two `sanitizePath` passes reach a fixed point on the character level. -/
theorem sanitizePathL_cube (l : List Char) :
    sanitizePathL (sanitizePathL (sanitizePathL l)) =
      sanitizePathL (sanitizePathL l) := by
  obtain ⟨ps, hps, hgood⟩ := sanitizePathL_parts l
  rw [hps, sanitize_join_good ps hgood]
  have hgood' : ∀ p ∈ ps.filter (fun p => p ≠ ['.']), GoodPart p :=
    fun p hp => hgood p (List.mem_of_mem_filter hp)
  rw [sanitize_join_good _ hgood']
  congr 1
  rw [List.filter_eq_self]
  intro a ha
  exact (List.mem_filter.mp ha).2

/-- **C10** (amended): `sanitizePath` is not idempotent, but its square is —
a third application never changes the result of two applications. -/
theorem c10_sanitize_square_idempotent (s : String) :
    sanitizePath (sanitizePath (sanitizePath s)) = sanitizePath (sanitizePath s) := by
  have hdata : ∀ l : List Char, (String.mk l).data = l := fun _ => rfl
  simp only [sanitizePath, hdata]
  exact congrArg String.mk (sanitizePathL_cube s.data)

/-- **C2** (amended): for jobs submitted together and contending for the same
dispatch slot, the `p-queue` dispatch order is a permutation of the submitted
jobs in which a job precedes another exactly on the legitimate grounds of a
**higher** numeric priority value, or an equal priority and an earlier
submission index (stable FIFO ties).  In particular jobs with priorities
`[2, 0, 1]` begin in priority order `[2, 1, 0]`, not `[0, 1, 2]`. -/
theorem c2_priority_order_amended (ps : List Int) :
    (pqOrder ps).Perm ps.enum ∧ (pqOrder ps).Pairwise pqR := by
  obtain ⟨hp, hperm⟩ := pqFold_invariant ps 0 [] (by simp) (by simp)
  exact ⟨by simpa [pqOrder, List.enum] using hperm, by simpa [pqOrder, List.enum] using hp⟩

end Autoclone
